import Mathlib

/-!
Verification development for the chat-analyzer analysis pipeline
(`src/app/api/analyze/route.ts`).

The embedding works on `List Char` for the text-processing code
(`normalizePhoneNumber`, `parseVCard`) and on explicit row lists for the
four SQL queries run by `POST`.  JavaScript regular-expression operations
are translated into concrete scanning functions; `Map` is modelled as an
association list with JavaScript `Map.set` / `Map.get` semantics
(insertion order preserved, `set` overwrites in place).  SQLite's integer
division truncates toward zero, hence `Int.tdiv`; the `localtime`
conversion of SQLite's `datetime` is modelled by an arbitrary
timezone-offset function `tz : Int → Int` (offset in seconds, a function
of the Unix timestamp so that DST-dependent offsets are covered).
-/

/-! ## Phone normalizer (`normalizePhoneNumber`, route.ts lines 8-11) -/

/-- Digit filter on character lists: the JS `phone.replace(/\D/g, '')`
keeps exactly the decimal digits `0`-`9`. -/
def charNormalize (l : List Char) : List Char := l.filter (fun c => c.isDigit)

/-- Source `normalizePhoneNumber`: strips every non-digit character. -/
def normalizePhoneNumber (s : String) : String := String.mk (charNormalize s.data)

/-! ## Text utilities used by `parseVCard` -/

/-- JavaScript whitespace test used by `String.prototype.trim` (ASCII part;
the inputs in this development contain no exotic Unicode whitespace). -/
def jsWS (c : Char) : Bool :=
  c == ' ' || c == '\t' || c == '\n' || c == '\r' || c == '\x0b' || c == '\x0c'

/-- JavaScript `trim`: drops whitespace from both ends. -/
def jsTrim (l : List Char) : List Char :=
  ((l.dropWhile jsWS).reverse.dropWhile jsWS).reverse

/-- Global, non-overlapping, left-to-right replacement of a two-character
pattern (given by `test` on the pair) by `r`; this is JS
`str.replace(/ab/g, r)` for two-character patterns. -/
def replace2 (test : Char → Char → Bool) (r : List Char) : List Char → List Char
  | [] => []
  | [c] => [c]
  | c :: d :: rest =>
      if test c d then r ++ replace2 test r rest
      else c :: replace2 test r (d :: rest)

/-- vCard value unescaping as written in the source: `\,` to `,`, then
`\;` to `;`, then `\n` to a space, then `\\` to `\`, each a global
left-to-right replacement (route.ts lines 37 and 69). -/
def unescapeVCard (l : List Char) : List Char :=
  replace2 (fun c d => c == '\\' && d == '\\') ['\\']
    (replace2 (fun c d => c == '\\' && d == 'n') [' ']
      (replace2 (fun c d => c == '\\' && d == ';') [';']
        (replace2 (fun c d => c == '\\' && d == ',') [','] l)))

/-- Line-ending normalization and continuation-line folding
(route.ts lines 18-21): `\r\n` to `\n`, then `\r` to `\n`, then every
`\n` followed by a space or tab is removed together with that space/tab. -/
def normalizeLines (l : List Char) : List Char :=
  replace2 (fun c d => c == '\n' && (d == ' ' || d == '\t')) []
    ((replace2 (fun c d => c == '\r' && d == '\n') ['\n'] l).map
      (fun c => if c == '\r' then '\n' else c))

/-- Case-insensitive test that `pat` is a prefix of the second list. -/
def ciStartsWith : List Char → List Char → Bool
  | [], _ => true
  | _ :: _, [] => false
  | p :: ps, c :: cs => (p.toLower == c.toLower) && ciStartsWith ps cs

/-- The record marker the source splits on (`/BEGIN:VCARD/i`). -/
def beginMarker : List Char := ['B', 'E', 'G', 'I', 'N', ':', 'V', 'C', 'A', 'R', 'D']

/-- Fuel-driven splitter on case-insensitive occurrences of `beginMarker`;
`fuel` is instantiated with the input length, which suffices because every
step consumes at least one character. -/
def splitMarkerAux : Nat → List Char → List Char → List (List Char)
  | _, acc, [] => [acc.reverse]
  | 0, acc, rest => [acc.reverse ++ rest]
  | fuel + 1, acc, c :: cs =>
      if ciStartsWith beginMarker (c :: cs) then
        acc.reverse :: splitMarkerAux fuel [] (List.drop beginMarker.length (c :: cs))
      else
        splitMarkerAux fuel (c :: acc) cs

/-- JS `normalized.split(/BEGIN:VCARD/i)` (route.ts line 24). -/
def splitMarker (l : List Char) : List (List Char) := splitMarkerAux l.length [] l

/-- Attempted match of `/FN[;:]?([^\n]*)/i` at the head of the list,
returning the capture group. -/
def fnCapture : List Char → Option (List Char)
  | f :: n :: rest =>
      if (f.toLower == 'f') && (n.toLower == 'n') then
        let rest2 := match rest with
          | c :: cs => if c == ';' || c == ':' then cs else c :: cs
          | [] => []
        some (rest2.takeWhile (fun c => c != '\n'))
      else none
  | _ => none

/-- First match of `/FN[;:]?([^\n]*)/i` anywhere in the list (the pattern
is not anchored, so the scan tries every position left to right). -/
def findFN : List Char → Option (List Char)
  | [] => none
  | c :: cs =>
      match fnCapture (c :: cs) with
      | some cap => some cap
      | none => findFN cs

/-- Attempted match of `N[;:]?([^\n]*)` (case-insensitive) at the head of
the list, returning the capture group. -/
def nCapture : List Char → Option (List Char)
  | c :: rest =>
      if c.toLower == 'n' then
        let rest2 := match rest with
          | d :: ds => if d == ';' || d == ':' then ds else d :: ds
          | [] => []
        some (rest2.takeWhile (fun x => x != '\n'))
      else none
  | [] => none

/-- Scan for `/^N[;:]?([^\n]*)/im`: the flag records whether the current
position is the start of the string or follows a newline. -/
def findNAux : Bool → List Char → Option (List Char)
  | _, [] => none
  | atStart, c :: cs =>
      match (if atStart then nCapture (c :: cs) else none) with
      | some cap => some cap
      | none => findNAux (c == '\n') cs

/-- First match of `/^N[;:]?([^\n]*)/im` in the list (route.ts line 42). -/
def findN (l : List Char) : Option (List Char) := findNAux true l

/-- JS `raw.split(';')`. -/
def splitChar (sep : Char) : List Char → List (List Char)
  | [] => [[]]
  | c :: cs =>
      let r := splitChar sep cs
      if c == sep then [] :: r
      else
        match r with
        | [] => [[c]]
        | h :: t => (c :: h) :: t

/-- Name composition from the `N` field value (route.ts lines 44-57):
split on `;`, trim, drop empty parts, then join `parts[1]` and `parts[0]`
with a space (note the indices address the already-filtered list). -/
def composeN (raw : List Char) : List Char :=
  let parts := ((splitChar ';' raw).map jsTrim).filter (fun p => !p.isEmpty)
  if 0 < parts.length then
    let given := parts.getD 1 []
    let family := parts.getD 0 []
    let name := jsTrim (List.intercalate [' '] ([given, family].filter (fun p => !p.isEmpty)))
    if name.isEmpty then (parts.find? (fun p => !p.isEmpty)).getD [] else name
  else []

/-- Display-name derivation for one record chunk (route.ts lines 29-62):
prefer the first `FN` match (trimmed, then unescaped); if that yields the
empty string, fall back to the first line-anchored `N` match composed by
`composeN`; an empty result means the record is skipped. -/
def deriveName (chunk : List Char) : Option (List Char) :=
  let fnName :=
    match findFN chunk with
    | some cap => unescapeVCard (jsTrim cap)
    | none => []
  let name :=
    if !fnName.isEmpty then fnName
    else
      match findN chunk with
      | some raw => composeN raw
      | none => []
  if name.isEmpty then none else some name

/-- Attempted match of `/TEL[^:\n]*:([^\n]*)/i` at the head of the list;
returns the capture and the remainder after the whole match (the position
`matchAll` continues from). -/
def telCapture : List Char → Option (List Char × List Char)
  | t :: e :: l :: rest =>
      if (t.toLower == 't') && (e.toLower == 'e') && (l.toLower == 'l') then
        let pre := rest.takeWhile (fun c => c != ':' && c != '\n')
        match rest.drop pre.length with
        | ':' :: r2 =>
            let cap := r2.takeWhile (fun c => c != '\n')
            some (cap, r2.drop cap.length)
        | _ => none
      else none
  | _ => none

/-- Fuel-driven scan for all non-overlapping `/TEL[^:\n]*:([^\n]*)/gi`
matches; each step consumes at least one character, so fuel equal to the
input length suffices. -/
def findTELsAux : Nat → List Char → List (List Char)
  | 0, _ => []
  | _ + 1, [] => []
  | fuel + 1, c :: cs =>
      match telCapture (c :: cs) with
      | some (cap, rest) => cap :: findTELsAux fuel rest
      | none => findTELsAux fuel cs

/-- All `TEL` field captures of a record chunk (route.ts line 65). -/
def findTELs (l : List Char) : List (List Char) := findTELsAux l.length l

/-! ## The directory map (JS `Map` with `set`/`get`) -/

/-- JS `Map.prototype.set`: overwrite the entry in place if the key is
present, otherwise append. -/
def mapSet : List (String × String) → String → String → List (String × String)
  | [], k, v => [(k, v)]
  | p :: rest, k, v => if p.1 == k then (k, v) :: rest else p :: mapSet rest k v

/-- JS `Map.prototype.get` (as an `Option`). -/
def mapGet (m : List (String × String)) (k : String) : Option String :=
  (m.find? (fun p => p.1 == k)).map (fun p => p.2)

/-- Replay a list of `set` operations on an initially empty map. -/
def buildMap (l : List (String × String)) : List (String × String) :=
  l.foldl (fun m kv => mapSet m kv.1 kv.2) []

/-- The `set` operations one accepted `TEL` capture produces
(route.ts lines 66-83): unescape and normalize the value; if the key has
at least 10 digits insert it, plus the last-10-digits variant when longer
than 10, plus the leading-`1`-stripped variant when exactly 11 digits
starting with `1`. -/
def telEntries (name cap : List Char) : List (String × String) :=
  let phone := unescapeVCard (jsTrim cap)
  let np := charNormalize phone
  if (!np.isEmpty) && decide (10 ≤ np.length) then
    [(String.mk np, String.mk name)]
      ++ (if decide (10 < np.length) then
            [(String.mk (np.drop (np.length - 10)), String.mk name)] else [])
      ++ (if decide (np.length = 11) && (np.head? == some '1') then
            [(String.mk (np.drop 1), String.mk name)] else [])
  else []

/-- The `set` operations one record chunk produces: nothing when the chunk
trims to empty or no name is derivable, otherwise the `telEntries` of each
`TEL` capture in order. -/
def chunkEntries (chunk : List Char) : List (String × String) :=
  if (jsTrim chunk).isEmpty then []
  else
    match deriveName chunk with
    | none => []
    | some name => (findTELs chunk).flatMap (telEntries name)

/-- The record chunks of an address-book text (route.ts lines 18-24). -/
def vcardChunks (text : String) : List (List Char) :=
  splitMarker (normalizeLines text.data)

/-- The full ordered sequence of `set` operations `parseVCard` performs. -/
def vcardInsertions (text : String) : List (String × String) :=
  (vcardChunks text).flatMap chunkEntries

/-- Source `parseVCard`: replay all insertions on an empty map
(route.ts lines 14-88). -/
def parseVCard (text : String) : List (String × String) :=
  buildMap (vcardInsertions text)

/-! ## Contact-name resolution (`getContactName`, route.ts lines 113-117) -/

/-- JS `a || b` on possibly-absent strings: an empty string is falsy. -/
def jsOr (a b : Option String) : Option String :=
  match a with
  | some v => if v == "" then b else some v
  | none => b

/-- JS `s.slice(-10)`: the last 10 characters (the whole string when it is
shorter than 10). -/
def jsLast10 (s : String) : String := String.mk (s.data.drop (s.data.length - 10))

/-- Source `getContactName`: a null or empty handle resolves to null;
otherwise look up the normalized key, then its last-10-digits variant. -/
def getContactName (dir : List (String × String)) (p : Option String) : Option String :=
  match p with
  | none => none
  | some ph =>
      if ph == "" then none
      else
        let normalized := normalizePhoneNumber ph
        jsOr (mapGet dir normalized) (jsOr (mapGet dir (jsLast10 normalized)) none)

/-! ## The message store and the four queries (route.ts lines 150-220) -/

/-- A row of the `message` table (the columns the queries read).  The
human-readable `readable_date` string column of the first query is
presentation-only and is not modelled. -/
structure Message where
  rowid : Int
  guid : String
  text : Option String
  date : Int
  date_read : Option Int
  is_from_me : Int
  handle_id : Int
deriving DecidableEq, Repr

/-- A row of the `handle` table. -/
structure Handle where
  rowid : Int
  id : String
deriving DecidableEq, Repr

/-- A row of the `chat` table. -/
structure Chat where
  rowid : Int
  chat_identifier : Option String
  display_name : Option String
deriving DecidableEq, Repr

/-- A row of the `chat_message_join` table. -/
structure CMJ where
  message_id : Int
  chat_id : Int
deriving DecidableEq, Repr

/-- The relational content of an uploaded `chat.db` file. -/
structure Store where
  messages : List Message
  handles : List Handle
  chats : List Chat
  cmjs : List CMJ
deriving DecidableEq, Repr

/-- One output row of the all-messages query. -/
structure MsgRow where
  rowid : Int
  guid : String
  text : Option String
  date : Int
  date_read : Option Int
  is_from_me : Int
  handle_id : Int
  phone_number : Option String
  chat_identifier : Option String
  display_name : Option String
deriving DecidableEq, Repr

/-- One output row of the per-handle summary query. -/
structure ContactRow where
  rowid : Int
  phone : String
  messageCount : Nat
  receivedCount : Nat
  sentCount : Nat
deriving DecidableEq, Repr

/-- Insertion sort by a boolean `le`; stands in for SQL `ORDER BY`
(the order among ties is unspecified in SQL, so any sort is a faithful
model). -/
def insertLe {α : Type} (le : α → α → Bool) (x : α) : List α → List α
  | [] => [x]
  | y :: ys => if le x y then x :: y :: ys else y :: insertLe le x ys

/-- Sort a list by a boolean `le`. -/
def sortByLe {α : Type} (le : α → α → Bool) : List α → List α
  | [] => []
  | x :: xs => insertLe le x (sortByLe le xs)

/-- SQL `LEFT JOIN handle h ON m.handle_id = h.ROWID`: the matching
handles, or a single null row when none matches. -/
def handleOptsFor (s : Store) (m : Message) : List (Option Handle) :=
  match s.handles.filter (fun h => h.rowid == m.handle_id) with
  | [] => [none]
  | l => l.map some

/-- SQL `LEFT JOIN chat_message_join cmj ON m.ROWID = cmj.message_id`. -/
def cmjOptsFor (s : Store) (m : Message) : List (Option CMJ) :=
  match s.cmjs.filter (fun j => j.message_id == m.rowid) with
  | [] => [none]
  | l => l.map some

/-- SQL `LEFT JOIN chat c ON cmj.chat_id = c.ROWID`; a null join row joins
to null. -/
def chatOptsFor (s : Store) : Option CMJ → List (Option Chat)
  | none => [none]
  | some j =>
      match s.chats.filter (fun c => c.rowid == j.chat_id) with
      | [] => [none]
      | l => l.map some

/-- The join rows one message contributes to the all-messages query. -/
def msgJoinRows (s : Store) (m : Message) : List MsgRow :=
  (handleOptsFor s m).flatMap fun oh =>
    (cmjOptsFor s m).flatMap fun oj =>
      (chatOptsFor s oj).map fun oc =>
        { rowid := m.rowid, guid := m.guid, text := m.text, date := m.date,
          date_read := m.date_read, is_from_me := m.is_from_me,
          handle_id := m.handle_id,
          phone_number := oh.map (fun h => h.id),
          chat_identifier := oc.bind (fun c => c.chat_identifier),
          display_name := oc.bind (fun c => c.display_name) }

/-- The all-messages query (route.ts lines 155-176): the left joins,
ordered by `m.date DESC`. -/
def allMessageRows (s : Store) : List MsgRow :=
  sortByLe (fun a b => decide (b.date ≤ a.date)) (s.messages.flatMap (msgJoinRows s))

/-- The `GROUP BY h.ROWID, h.id` keys of the per-handle query: the
distinct key pairs occurring in `handle` (`SELECT DISTINCT` dedups
identical full rows but group keys already differ). -/
def contactKeys (s : Store) : List (Int × String) :=
  (s.handles.map (fun h => (h.rowid, h.id))).dedup

/-- The join rows of `handle h LEFT JOIN message m ON h.ROWID =
m.handle_id` belonging to one group key: each handle with the key
contributes its matching messages, or one null row when it has none. -/
def groupMsgOpts (s : Store) (k : Int × String) : List (Option Message) :=
  (s.handles.filter (fun h => h.rowid == k.1 && h.id == k.2)).flatMap fun h =>
    match s.messages.filter (fun m => m.handle_id == h.rowid) with
    | [] => [none]
    | l => l.map some

/-- One group's output row: `COUNT(*)` counts every join row (including a
null-extended one); the two `SUM(CASE ...)` columns count only non-null
message rows with the respective flag value. -/
def contactRowOf (s : Store) (k : Int × String) : ContactRow :=
  let rows := groupMsgOpts s k
  { rowid := k.1, phone := k.2,
    messageCount := rows.length,
    receivedCount := (rows.filter (fun r =>
      match r with | some m => m.is_from_me == 0 | none => false)).length,
    sentCount := (rows.filter (fun r =>
      match r with | some m => m.is_from_me == 1 | none => false)).length }

/-- The per-handle summary query (route.ts lines 179-193), ordered by
`message_count DESC`. -/
def contactRows (s : Store) : List ContactRow :=
  sortByLe (fun a b => decide (b.messageCount ≤ a.messageCount))
    ((contactKeys s).map (contactRowOf s))

/-- SQLite `m.date/1000000000 + 978307200`: truncating division, then the
fixed Apple-epoch offset. -/
def appleEpochToUnix (d : Int) : Int := Int.tdiv d 1000000000 + 978307200

/-- The local-time second count of a message timestamp, for a timezone
offset function `tz` (seconds east of UTC as a function of the Unix
timestamp). -/
def localSeconds (tz : Int → Int) (d : Int) : Int :=
  appleEpochToUnix d + tz (appleEpochToUnix d)

/-- The local calendar day of a message timestamp, as a day index
(floor division; consecutive calendar days get consecutive indices). -/
def dayOf (tz : Int → Int) (d : Int) : Int := Int.fdiv (localSeconds tz d) 86400

/-- The local hour of day of a message timestamp
(`CAST(strftime('%H', ...) AS INTEGER)`). -/
def hourOf (tz : Int → Int) (d : Int) : Nat :=
  ((localSeconds tz d).emod 86400).toNat / 3600

/-- One row of the daily-counts query. -/
structure DailyStat where
  day : Int
  count : Nat
deriving DecidableEq, Repr

/-- One row of the hourly-counts query. -/
structure HourlyStat where
  hour : Nat
  count : Nat
deriving DecidableEq, Repr

/-- The daily-counts query (route.ts lines 196-204): group by local day,
order by day descending, keep at most 365 rows. -/
def dailyStatRows (s : Store) (tz : Int → Int) : List DailyStat :=
  let days := (s.messages.map (fun m => dayOf tz m.date)).dedup
  ((sortByLe (fun a b => decide (b ≤ a)) days).take 365).map fun d =>
    { day := d, count := (s.messages.filter (fun m => dayOf tz m.date == d)).length }

/-- The hourly-counts query (route.ts lines 210-217): group by local hour,
order by hour ascending. -/
def hourlyStatRows (s : Store) (tz : Int → Int) : List HourlyStat :=
  let hours := (s.messages.map (fun m => hourOf tz m.date)).dedup
  (sortByLe (fun a b => decide (a ≤ b)) hours).map fun h =>
    { hour := h, count := (s.messages.filter (fun m => hourOf tz m.date == h)).length }

/-! ## The statistics assembler (route.ts lines 222-284) -/

/-- A formatted message entry of the response. -/
structure FMessage where
  id : Int
  guid : String
  text : Option String
  date : Int
  dateRead : Option Int
  isFromMe : Bool
  handleId : Int
  phoneNumber : Option String
  contactName : Option String
  chatIdentifier : Option String
  displayName : Option String
deriving DecidableEq, Repr

/-- A formatted contact entry of the response. -/
structure FContact where
  id : Int
  phoneNumber : String
  contactName : Option String
  messageCount : Nat
  receivedCount : Nat
  sentCount : Nat
deriving DecidableEq, Repr

/-- The summary block of the response. -/
structure Summary where
  totalMessages : Nat
  sentMessages : Nat
  receivedMessages : Nat
  uniqueContacts : Nat
deriving DecidableEq, Repr

/-- The response object of a successful analysis. -/
structure AnalysisResult where
  summary : Summary
  contacts : List FContact
  dailyStats : List DailyStat
  hourlyStats : List HourlyStat
  messages : List FMessage
deriving DecidableEq, Repr

/-- Formatting of one message row (route.ts lines 229-246). -/
def formatMessage (dir : List (String × String)) (r : MsgRow) : FMessage :=
  { id := r.rowid, guid := r.guid, text := r.text, date := r.date,
    dateRead := r.date_read, isFromMe := r.is_from_me == 1,
    handleId := r.handle_id, phoneNumber := r.phone_number,
    contactName := getContactName dir r.phone_number,
    chatIdentifier := r.chat_identifier, displayName := r.display_name }

/-- Formatting of one contact row (route.ts lines 248-259). -/
def formatContact (dir : List (String × String)) (r : ContactRow) : FContact :=
  { id := r.rowid, phoneNumber := r.phone,
    contactName := getContactName dir (some r.phone),
    messageCount := r.messageCount, receivedCount := r.receivedCount,
    sentCount := r.sentCount }

/-- The whole assembly of the response from the four query results and the
directory (route.ts lines 222-284): summary counts over the all-messages
rows, formatted contacts and messages, and the 100-entry cap on the
message list. -/
def analyze (dir : List (String × String)) (s : Store) (tz : Int → Int) : AnalysisResult :=
  let messages := allMessageRows s
  let contacts := contactRows s
  { summary :=
      { totalMessages := messages.length,
        sentMessages := (messages.filter (fun m => m.is_from_me == 1)).length,
        receivedMessages := (messages.filter (fun m => m.is_from_me == 0)).length,
        uniqueContacts := contacts.length },
    contacts := contacts.map (formatContact dir),
    dailyStats := dailyStatRows s tz,
    hourlyStats := hourlyStatRows s tz,
    messages := (messages.map (formatMessage dir)).take 100 }

/-! ## The request handler (`POST`, route.ts lines 90-292) -/

/-- How loading the uploaded store file can go: the `SQL.Database`
constructor throws (store never opened), some `db.exec` throws after the
store was opened (missing table, corrupt schema), or everything succeeds. -/
inductive DbLoad where
  | openFail (msg : String)
  | queryFail (msg : String)
  | ok (s : Store)
deriving DecidableEq, Repr

/-- The outcome the handler returns. -/
inductive PostOutcome where
  | ok (r : AnalysisResult)
  | clientError (msg : String)
  | serverError (msg : String)
deriving DecidableEq, Repr

/-- The handler result together with whether the store instance is still
open when the handler returns. -/
structure PostResult where
  outcome : PostOutcome
  dbOpenAtEnd : Bool
deriving DecidableEq, Repr

/-- The `POST` control flow: missing file means a 400 before any open; the
optional contacts file is parsed inside its own try/catch, an exception
leaving the directory empty; a query failure jumps to the outer catch,
which returns a 500 without calling `db.close()`; on success the store is
closed and the result returned. -/
def runPost (file : Option DbLoad) (contactsFile : Option (Except String String))
    (tz : Int → Int) : PostResult :=
  match file with
  | none => { outcome := .clientError "No file provided", dbOpenAtEnd := false }
  | some load =>
      let dir :=
        match contactsFile with
        | none => []
        | some (.error _) => []
        | some (.ok text) => parseVCard text
      match load with
      | .openFail msg => { outcome := .serverError msg, dbOpenAtEnd := false }
      | .queryFail msg => { outcome := .serverError msg, dbOpenAtEnd := true }
      | .ok s => { outcome := .ok (analyze dir s tz), dbOpenAtEnd := false }

/-! ## Map lemmas -/

/-- Reading a map after a `set`: the written key returns the new value,
every other key is unaffected. -/
theorem mapGet_mapSet (m : List (String × String)) (a b k : String) :
    mapGet (mapSet m a b) k = if a == k then some b else mapGet m k := by
  induction m with
  | nil =>
      simp only [mapSet, mapGet, List.find?]
      by_cases h : a == k
      · simp [h]
      · simp [h]
  | cons p rest ih =>
      simp only [mapSet]
      by_cases hp : p.1 == a
      · simp only [hp, if_true]
        by_cases hk : a == k
        · simp [mapGet, List.find?, hk]
        · have hpk : (p.1 == k) = false := by
            have h1 : p.1 = a := by simpa using hp
            have h2 : ¬ a = k := by simpa using hk
            simp [h1, h2]
          simp [mapGet, List.find?, hk, hpk]
      · simp only [hp, if_false]
        by_cases hk : p.1 == k
        · have h1 : p.1 = k := by simpa using hk
          have h2 : ¬ a = k := by
            intro h
            rw [h, ← h1] at hp
            simp at hp
          simp [mapGet, List.find?, hk, h2]
        · simp only [mapGet, List.find?, hk, cond_false] at *
          simpa [mapGet] using ih

/-- Replaying `set` operations left to right: a lookup returns the value
of the last operation on the key, falling back to the initial map. -/
theorem mapGet_foldl (l : List (String × String)) (m : List (String × String)) (k : String) :
    mapGet (l.foldl (fun acc kv => mapSet acc kv.1 kv.2) m) k
      = match l.reverse.find? (fun kv => kv.1 == k) with
        | some kv => some kv.2
        | none => mapGet m k := by
  induction l generalizing m with
  | nil => simp
  | cons kv t ih =>
      simp only [List.foldl_cons, List.reverse_cons, List.find?_append]
      rw [ih]
      cases h : t.reverse.find? (fun kv => kv.1 == k) with
      | some w => simp [h]
      | none =>
          simp only [h, Option.none_or]
          rw [mapGet_mapSet]
          by_cases hk : kv.1 == k
          · simp [List.find?, hk]
          · simp [List.find?, hk]

/-! ## Claim C1 -/

/-- Two records assigning different names to the same phone key. -/
def c1Text : String :=
  "BEGIN:VCARD\nFN:Alice\nTEL:5551234567\nEND:VCARD\nBEGIN:VCARD\nFN:Bob\nTEL:5551234567\nEND:VCARD"

/-- Claim C1 is false on the code: the first record maps the key
`5551234567` to `Alice`, yet after the later record is processed the
directory holds `Bob` — `Map.set` overwrites, so the insertion performed
while processing the later record does change the established mapping. -/
theorem c1_counterexample :
    vcardInsertions c1Text = [("5551234567", "Alice"), ("5551234567", "Bob")]
    ∧ parseVCard c1Text = [("5551234567", "Bob")] := by
  constructor <;> rfl

/-- Claim C1 amended: building the directory is a last-writer-wins
(unconditional assignment) fold — a lookup in the finished directory
returns the value of the latest insertion performed for that key, so for
a key contributed by two distinct records the directory holds the name
from the later record. -/
theorem c1_last_writer_wins (text : String) (k : String) :
    mapGet (parseVCard text) k
      = ((vcardInsertions text).reverse.find? (fun kv => kv.1 == k)).map
          (fun kv => kv.2) := by
  unfold parseVCard buildMap
  rw [mapGet_foldl]
  cases h : (vcardInsertions text).reverse.find? (fun kv => kv.1 == k) with
  | some w => simp [h]
  | none => simp [h, mapGet]

/-! ## Claim C3 -/

/-- Claim C3 fails on the code: a store file that opens but whose first
query throws (for instance a valid SQLite file without a `message` table)
takes the catch path, which returns the 500 response without calling
`db.close()` — the store is still open when the handler returns. -/
theorem c3_store_leak_on_error :
    (runPost (some (.queryFail "no such table: message")) none (fun _ => 0)).dbOpenAtEnd = true
    ∧ (runPost (some (.queryFail "no such table: message")) none (fun _ => 0)).outcome
        = .serverError "no such table: message"
    ∧ (runPost none none (fun _ => 0)).dbOpenAtEnd = false := by
  exact ⟨rfl, rfl, rfl⟩

/-! ## Claim C7 -/

/-- Resolution against the empty directory always fails (returns null
rather than raising). -/
theorem getContactName_nil (p : Option String) : getContactName [] p = none := by
  cases p with
  | none => rfl
  | some ph =>
      by_cases h : ph == ""
      · simp [getContactName, h]
      · simp [getContactName, h, mapGet, jsOr, List.find?]

/-- Claim C7: a contact-file read failure is absorbed — the analysis still
returns a result, built against the empty directory; any contacts text at
all likewise yields a result (the parser is total); and with the empty
directory every `contactName` in the result, in the message list as well
as the contact list, is absent. -/
theorem c7_parse_failure_absorbed (e text : String) (s : Store) (tz : Int → Int) :
    (runPost (some (.ok s)) (some (.error e)) tz).outcome = .ok (analyze [] s tz)
    ∧ (runPost (some (.ok s)) (some (.ok text)) tz).outcome
        = .ok (analyze (parseVCard text) s tz)
    ∧ ((analyze [] s tz).messages.all fun m => m.contactName.isNone)
    ∧ ((analyze [] s tz).contacts.all fun c => c.contactName.isNone) := by
  refine ⟨rfl, rfl, ?_, ?_⟩
  · rw [List.all_eq_true]
    intro fm hfm
    have hfm' := List.mem_of_mem_take hfm
    rcases List.mem_map.1 hfm' with ⟨r, _, rfl⟩
    simp [formatMessage, getContactName_nil]
  · rw [List.all_eq_true]
    intro fc hfc
    rcases List.mem_map.1 hfc with ⟨r, _, rfl⟩
    simp [formatContact, getContactName_nil]

/-! ## Claim C8 -/

/-- Claim C8: `normalizePhoneNumber` is idempotent, its output consists of
decimal digits only, and the empty string maps to the empty key.  (It is a
plain total function of the input string: no exception path exists.) -/
theorem c8_normalize_props :
    (∀ x : String, normalizePhoneNumber (normalizePhoneNumber x) = normalizePhoneNumber x)
    ∧ (∀ x : String, ∀ c ∈ (normalizePhoneNumber x).data, c.isDigit = true)
    ∧ normalizePhoneNumber "" = "" := by
  refine ⟨?_, ?_, rfl⟩
  · intro x
    simp [normalizePhoneNumber, charNormalize, List.filter_filter]
  · intro x c hc
    simp only [normalizePhoneNumber, charNormalize] at hc
    exact (List.mem_filter.1 hc).2

/-- Witness for C8 at a concrete input: the character `1` occurs in the
normalization of `a1b2` and is a digit. -/
theorem c8_normalize_props_witness :
    ('1' ∈ (normalizePhoneNumber "a1b2").data) ∧ ('1').isDigit = true :=
  ⟨by decide, c8_normalize_props.2.1 "a1b2" '1' (by decide)⟩

/-! ## Claim C10 -/

/-- A record with no line-initial full-name field, but with the characters
`FN` inside the value of a `NOTE` field. -/
def c10Text : String :=
  "BEGIN:VCARD\nNOTE:see FN elsewhere\nTEL:+1 (555) 123-4567\nEND:VCARD"

/-- Claim C10: the full-name match is not anchored, so the first occurrence
of `FN` anywhere in the chunk — here inside the `NOTE` value — supplies the
name, taken as the rest of that line (trimmed): the directory maps both
derived keys to `elsewhere`. -/
theorem c10_unanchored_fn :
    findFN ("\nNOTE:see FN elsewhere\nTEL:+1 (555) 123-4567\nEND:VCARD".data)
      = some (" elsewhere".data)
    ∧ parseVCard c10Text
      = [("15551234567", "elsewhere"), ("5551234567", "elsewhere")] := by
  constructor <;> rfl

/-! ## Sorting lemmas -/

/-- Insertion keeps the multiset of elements. -/
theorem perm_insertLe {α : Type} (le : α → α → Bool) (x : α) (l : List α) :
    (insertLe le x l).Perm (x :: l) := by
  induction l with
  | nil => simp [insertLe]
  | cons y ys ih =>
      simp only [insertLe]
      by_cases h : le x y
      · simp [h]
      · simp only [h, if_false]
        exact ((List.perm_cons y).2 ih).trans (List.Perm.swap x y ys)

/-- Sorting keeps the multiset of elements. -/
theorem perm_sortByLe {α : Type} (le : α → α → Bool) (l : List α) :
    (sortByLe le l).Perm l := by
  induction l with
  | nil => simp [sortByLe]
  | cons x xs ih =>
      exact (perm_insertLe le x (sortByLe le xs)).trans ((List.perm_cons x).2 ih)

/-- Membership in an insertion. -/
theorem mem_insertLe {α : Type} (le : α → α → Bool) (x a : α) (l : List α) :
    a ∈ insertLe le x l ↔ a = x ∨ a ∈ l := by
  rw [(perm_insertLe le x l).mem_iff]
  simp

/-- Insertion preserves sortedness, given totality and transitivity of the
comparison. -/
theorem pairwise_insertLe {α : Type} (le : α → α → Bool)
    (htrans : ∀ a b c, le a b = true → le b c = true → le a c = true)
    (htot : ∀ a b, le a b = false → le b a = true) (x : α) (l : List α)
    (h : List.Pairwise (fun a b => le a b = true) l) :
    List.Pairwise (fun a b => le a b = true) (insertLe le x l) := by
  induction l with
  | nil => simp [insertLe]
  | cons y ys ih =>
      rcases List.pairwise_cons.1 h with ⟨hy, hys⟩
      simp only [insertLe]
      by_cases hxy : le x y = true
      · simp only [hxy, if_true]
        refine List.pairwise_cons.2 ⟨?_, h⟩
        intro b hb
        rcases List.mem_cons.1 hb with rfl | hb
        · exact hxy
        · exact htrans x y b hxy (hy b hb)
      · have hxy' : le x y = false := by
          cases hv : le x y
          · rfl
          · exact absurd hv hxy
        simp only [hxy', Bool.false_eq_true, if_false]
        refine List.pairwise_cons.2 ⟨?_, ih hys⟩
        intro b hb
        rcases (mem_insertLe le x b ys).1 hb with hbx | hb
        · rw [hbx]
          exact htot x y hxy'
        · exact hy b hb

/-- The sorted list is pairwise ordered, given totality and transitivity
of the comparison. -/
theorem pairwise_sortByLe {α : Type} (le : α → α → Bool)
    (htrans : ∀ a b c, le a b = true → le b c = true → le a c = true)
    (htot : ∀ a b, le a b = false → le b a = true) (l : List α) :
    List.Pairwise (fun a b => le a b = true) (sortByLe le l) := by
  induction l with
  | nil => simp [sortByLe]
  | cons x xs ih => exact pairwise_insertLe le htrans htot x (sortByLe le xs) ih

/-! ## Join-row structure lemmas -/

/-- Every join row a message contributes carries that message's scalar
columns. -/
theorem mem_msgJoinRows {s : Store} {m : Message} {r : MsgRow}
    (h : r ∈ msgJoinRows s m) :
    r.is_from_me = m.is_from_me ∧ r.date = m.date ∧ r.rowid = m.rowid := by
  simp only [msgJoinRows, List.mem_flatMap, List.mem_map] at h
  rcases h with ⟨oh, _, oj, _, oc, _, rfl⟩
  exact ⟨rfl, rfl, rfl⟩

/-- Every row of the all-messages result comes from a stored message. -/
theorem mem_allMessageRows {s : Store} {r : MsgRow} (h : r ∈ allMessageRows s) :
    ∃ m ∈ s.messages, r.is_from_me = m.is_from_me := by
  have h' := (perm_sortByLe _ _).mem_iff.1 h
  rcases List.mem_flatMap.1 h' with ⟨m, hm, hr⟩
  exact ⟨m, hm, (mem_msgJoinRows hr).1⟩

/-! ## Claim C4 -/

/-- Claim C4: the summary counts are exactly the described row counts —
total is the row count of the all-messages result, sent counts the rows
with direction flag 1 (`is_from_me`), received counts the rows whose flag
does not indicate "from me" (under the store contract that the flag is 0
or 1), and uniqueContacts is the row count of the per-handle summary. -/
theorem c4_summary_counts (dir : List (String × String)) (s : Store) (tz : Int → Int)
    (hF : ∀ m ∈ s.messages, m.is_from_me = 0 ∨ m.is_from_me = 1) :
    (analyze dir s tz).summary.totalMessages = (allMessageRows s).length
    ∧ (analyze dir s tz).summary.sentMessages
        = ((allMessageRows s).filter (fun r => r.is_from_me == 1)).length
    ∧ (analyze dir s tz).summary.receivedMessages
        = ((allMessageRows s).filter (fun r => !(r.is_from_me == 1))).length
    ∧ (analyze dir s tz).summary.uniqueContacts = (contactRows s).length := by
  refine ⟨rfl, rfl, ?_, rfl⟩
  show ((allMessageRows s).filter (fun r => r.is_from_me == 0)).length
      = ((allMessageRows s).filter (fun r => !(r.is_from_me == 1))).length
  congr 1
  apply List.filter_congr
  intro r hr
  rcases mem_allMessageRows hr with ⟨m, hm, hflag⟩
  rcases hF m hm with h0 | h1
  · simp [hflag, h0]
  · simp [hflag, h1]

/-- A store with two messages, one sent (flag 1) and one received
(flag 0), on a single handle. -/
def demoStore : Store :=
  { messages := [
      { rowid := 1, guid := "g1", text := some "hi", date := 1000000000,
        date_read := none, is_from_me := 1, handle_id := 1 },
      { rowid := 2, guid := "g2", text := some "yo", date := 2000000000,
        date_read := none, is_from_me := 0, handle_id := 1 } ],
    handles := [ { rowid := 1, id := "5551234567" } ],
    chats := [], cmjs := [] }

/-- The trivial timezone-offset function (UTC). -/
def tz0 : Int → Int := fun _ => 0

/-- Witness for C4: on the two-message demo store the summary is
`{totalMessages := 2, sentMessages := 1, receivedMessages := 1}`. -/
theorem c4_summary_counts_witness :
    (analyze [] demoStore tz0).summary.totalMessages = 2
    ∧ (analyze [] demoStore tz0).summary.sentMessages = 1
    ∧ (analyze [] demoStore tz0).summary.receivedMessages = 1 := by
  have h := c4_summary_counts [] demoStore tz0 (by decide)
  refine ⟨?_, ?_, ?_⟩
  · rw [h.1]; rfl
  · rw [h.2.1]; rfl
  · rw [h.2.2.1]; rfl

/-! ## Claim C9 -/

/-- The local hour of day is at most 23. -/
theorem hourOf_le (tz : Int → Int) (d : Int) : hourOf tz d ≤ 23 := by
  unfold hourOf
  have hx0 : (0 : Int) ≤ (localSeconds tz d).emod 86400 :=
    Int.emod_nonneg _ (by norm_num)
  have hx : (localSeconds tz d).emod 86400 < 86400 :=
    Int.emod_lt_of_pos _ (by norm_num)
  have hxt : ((localSeconds tz d).emod 86400).toNat < 86400 :=
    (Int.toNat_lt hx0).2 (by exact_mod_cast hx)
  have h24 : ((localSeconds tz d).emod 86400).toNat / 3600 < 24 :=
    (Nat.div_lt_iff_lt_mul (by norm_num)).2 (by omega)
  omega

/-- Every hour value appearing in the hourly query output is the hour of
some stored message. -/
theorem mem_hourlyStatRows {s : Store} {tz : Int → Int} {row : HourlyStat}
    (h : row ∈ hourlyStatRows s tz) :
    ∃ m ∈ s.messages, row.hour = hourOf tz m.date := by
  simp only [hourlyStatRows] at h
  rcases List.mem_map.1 h with ⟨hr, hmem, rfl⟩
  have hmem2 : hr ∈ (s.messages.map (fun m => hourOf tz m.date)).dedup :=
    (perm_sortByLe _ _).mem_iff.1 hmem
  rcases List.mem_map.1 (List.mem_dedup.1 hmem2) with ⟨m, hm, rfl⟩
  exact ⟨m, hm, rfl⟩

/-- Claim C9: the message list is exactly the first 100 entries of the
newest-first ordering (all of them when fewer), so its length is
`min 100 total` and it is date-descending; `dailyStats` has at most 365
rows; every hourly row's hour is in `[0, 23]` (the hour is a `Nat`, so
the lower bound is inherent) and no two hourly rows share an hour. -/
theorem c9_result_limits (dir : List (String × String)) (s : Store) (tz : Int → Int) :
    (analyze dir s tz).messages = ((allMessageRows s).map (formatMessage dir)).take 100
    ∧ (analyze dir s tz).messages.length = min 100 (allMessageRows s).length
    ∧ List.Pairwise (fun a b => b.date ≤ a.date) (analyze dir s tz).messages
    ∧ (analyze dir s tz).dailyStats.length ≤ 365
    ∧ (∀ row ∈ (analyze dir s tz).hourlyStats, row.hour ≤ 23)
    ∧ List.Pairwise (fun a b => a.hour ≠ b.hour) (analyze dir s tz).hourlyStats := by
  refine ⟨rfl, ?_, ?_, ?_, ?_, ?_⟩
  · show (((allMessageRows s).map (formatMessage dir)).take 100).length
        = min 100 (allMessageRows s).length
    simp [List.length_take]
  · have hp := pairwise_sortByLe (fun (a b : MsgRow) => decide (b.date ≤ a.date))
      (fun a b c hab hbc => by
        simp only [decide_eq_true_eq] at hab hbc ⊢
        exact le_trans hbc hab)
      (fun a b hab => by
        simp only [decide_eq_false_iff_not] at hab
        simp only [decide_eq_true_eq]
        exact le_of_not_le hab)
      (s.messages.flatMap (msgJoinRows s))
    have hp2 : List.Pairwise (fun (a b : MsgRow) => b.date ≤ a.date) (allMessageRows s) := by
      unfold allMessageRows
      exact hp.imp (fun h => by simpa using h)
    have hp3 : List.Pairwise (fun (a b : FMessage) => b.date ≤ a.date)
        ((allMessageRows s).map (formatMessage dir)) :=
      List.pairwise_map.2 (hp2.imp (fun h => h))
    exact hp3.sublist (List.take_sublist 100 _)
  · show ((((sortByLe (fun a b => decide (b ≤ a))
        ((s.messages.map (fun m => dayOf tz m.date)).dedup)).take 365)).map _).length ≤ 365
    simp [List.length_take]
  · intro row hrow
    rcases mem_hourlyStatRows hrow with ⟨m, _, hh⟩
    rw [hh]
    exact hourOf_le tz m.date
  · have hnd : (sortByLe (fun a b => decide (a ≤ b))
        ((s.messages.map (fun m => hourOf tz m.date)).dedup)).Nodup :=
      ((perm_sortByLe _ _).nodup_iff).2 (List.nodup_dedup _)
    exact List.pairwise_map.2 (hnd.imp (fun h => h))

/-- Witness for C9 on the two-message demo store: the message list has
its full length 2 (below the cap), the daily list is within the 365
bound, and the hourly row present has hour at most 23. -/
theorem c9_result_limits_witness :
    (analyze [] demoStore tz0).messages.length = min 100 (allMessageRows demoStore).length
    ∧ (analyze [] demoStore tz0).dailyStats.length ≤ 365
    ∧ ({ hour := 0, count := 2 } : HourlyStat).hour ≤ 23 := by
  have h := c9_result_limits [] demoStore tz0
  exact ⟨h.2.1, h.2.2.2.1, h.2.2.2.2.1 { hour := 0, count := 2 } (by decide)⟩

/-! ## Directory-key structure lemmas -/

/-- A key resolves in the built directory exactly when some insertion
wrote it. -/
theorem mapGet_parseVCard_ne_none_iff (text k : String) :
    mapGet (parseVCard text) k ≠ none ↔ ∃ kv ∈ vcardInsertions text, kv.1 = k := by
  unfold parseVCard buildMap
  rw [mapGet_foldl]
  cases hf : (vcardInsertions text).reverse.find? (fun kv => kv.1 == k) with
  | some w =>
      simp only [hf]
      constructor
      · intro _
        refine ⟨w, List.mem_reverse.1 (List.mem_of_find?_eq_some hf), ?_⟩
        simpa using List.find?_some hf
      · intro _
        simp
  | none =>
      simp only [hf, mapGet, List.find?]
      constructor
      · intro h
        exact absurd rfl h
      · rintro ⟨kv, hmem, hk⟩ _
        have := List.find?_eq_none.1 hf kv (List.mem_reverse.2 hmem)
        exact this (by simpa using hk)

/-- Whenever the normalized key of a `TEL` capture is longer than 10
digits, the last-10-digits entry is among the capture's insertions. -/
theorem suffix_mem_telEntries {name cap : List Char}
    (hl : 10 < (charNormalize (unescapeVCard (jsTrim cap))).length) :
    (String.mk ((charNormalize (unescapeVCard (jsTrim cap))).drop
        ((charNormalize (unescapeVCard (jsTrim cap))).length - 10)), String.mk name)
      ∈ telEntries name cap := by
  simp only [telEntries]
  set np := charNormalize (unescapeVCard (jsTrim cap)) with hnp
  have hne : np.isEmpty = false := by
    rw [List.isEmpty_eq_false]
    intro h0
    rw [h0] at hl
    simp at hl
  have hg : ((!np.isEmpty) && decide (10 ≤ np.length)) = true := by
    rw [hne]
    simp only [Bool.not_false, Bool.true_and, decide_eq_true_eq]
    omega
  rw [if_pos hg, if_pos (decide_eq_true hl)]
  exact List.mem_append.2 (Or.inl (List.mem_append.2 (Or.inr (List.mem_singleton.2 rfl))))

/-- Shape of any single insertion a `TEL` capture produces: its value is
the record's name, its key derives from the digits-only normalization
`np` of the capture (which has at least 10 digits) as `np` itself, its
last-10 suffix, or — for an 11-digit `np` starting with `1` — `np`
without the leading digit. -/
theorem mem_telEntries_shape {name cap : List Char} {kv : String × String}
    (h : kv ∈ telEntries name cap) :
    ∃ np : List Char, np = charNormalize (unescapeVCard (jsTrim cap))
      ∧ (∀ c ∈ np, c.isDigit = true) ∧ 10 ≤ np.length
      ∧ kv.2 = String.mk name
      ∧ (kv.1 = String.mk np ∨ kv.1 = String.mk (np.drop (np.length - 10))
          ∨ (np.length = 11 ∧ kv.1 = String.mk (np.drop 1))) := by
  simp only [telEntries] at h
  set np := charNormalize (unescapeVCard (jsTrim cap)) with hnp
  have hdig : ∀ c ∈ np, c.isDigit = true := by
    intro c hc
    rw [hnp] at hc
    exact (List.mem_filter.1 hc).2
  by_cases hg : ((!np.isEmpty) && decide (10 ≤ np.length)) = true
  · rw [if_pos hg] at h
    have hlen : 10 ≤ np.length := by
      simp only [Bool.and_eq_true, decide_eq_true_eq] at hg
      exact hg.2
    rcases List.mem_append.1 h with h12 | h3
    · rcases List.mem_append.1 h12 with h1 | h2
      · have hkv := List.mem_singleton.1 h1
        subst hkv
        exact ⟨np, hnp, hdig, hlen, rfl, Or.inl rfl⟩
      · by_cases hl : decide (10 < np.length) = true
        · rw [if_pos hl] at h2
          have hkv := List.mem_singleton.1 h2
          subst hkv
          exact ⟨np, hnp, hdig, hlen, rfl, Or.inr (Or.inl rfl)⟩
        · rw [if_neg hl] at h2
          exact absurd h2 (List.not_mem_nil _)
    · by_cases hl : (decide (np.length = 11) && (np.head? == some '1')) = true
      · rw [if_pos hl] at h3
        have h11 : np.length = 11 := by
          simp only [Bool.and_eq_true, decide_eq_true_eq] at hl
          exact hl.1
        have hkv := List.mem_singleton.1 h3
        subst hkv
        exact ⟨np, hnp, hdig, hlen, rfl, Or.inr (Or.inr ⟨h11, rfl⟩)⟩
      · rw [if_neg hl] at h3
        exact absurd h3 (List.not_mem_nil _)
  · rw [if_neg hg] at h
    exact absurd h (List.not_mem_nil _)

/-- Elimination for membership in a chunk's insertions: the chunk was not
whitespace-only, a name was derived, and the insertion belongs to one of
its `TEL` captures. -/
theorem mem_chunkEntries_elim {chunk : List Char} {kv : String × String}
    (h : kv ∈ chunkEntries chunk) :
    ∃ name cap, (jsTrim chunk).isEmpty = false ∧ deriveName chunk = some name
      ∧ cap ∈ findTELs chunk ∧ kv ∈ telEntries name cap := by
  unfold chunkEntries at h
  by_cases ht : (jsTrim chunk).isEmpty = true
  · rw [if_pos ht] at h
    exact absurd h (List.not_mem_nil _)
  · rw [if_neg ht] at h
    have ht' : (jsTrim chunk).isEmpty = false := by
      cases hv : (jsTrim chunk).isEmpty
      · rfl
      · exact absurd hv ht
    cases hd : deriveName chunk with
    | none =>
        rw [hd] at h
        exact absurd h (List.not_mem_nil _)
    | some name =>
        rw [hd] at h
        rcases List.mem_flatMap.1 h with ⟨cap, hcap, hkv⟩
        exact ⟨name, cap, ht', rfl, hcap, hkv⟩

/-- Introduction for membership in a chunk's insertions. -/
theorem mem_chunkEntries_of {chunk name cap : List Char} {kv : String × String}
    (ht : (jsTrim chunk).isEmpty = false) (hd : deriveName chunk = some name)
    (hcap : cap ∈ findTELs chunk) (hkv : kv ∈ telEntries name cap) :
    kv ∈ chunkEntries chunk := by
  unfold chunkEntries
  rw [if_neg (by simp [ht]), hd]
  exact List.mem_flatMap.2 ⟨cap, hcap, hkv⟩

/-! ## Claim C6 -/

/-- The spec's scenario record. -/
def janeText : String := "BEGIN:VCARD\nFN:Jane Doe\nTEL:+1 (555) 123-4567\nEND:VCARD"

/-- Two records: the first contributes the 11-digit key and (as the
last-10 variant) the suffix key; the second record overwrites the suffix
key only. -/
def c6Text : String :=
  "BEGIN:VCARD\nFN:Alice\nTEL:15551234567\nEND:VCARD\nBEGIN:VCARD\nFN:Bob\nTEL:5551234567\nEND:VCARD"

/-- Claim C6 is false as stated: in the finished directory the accepted
key `15551234567` (length 11, starting with `1`) maps to `Alice`, but its
10-digit suffix key maps to `Bob` — a later record remapped the suffix
key, so the two keys are not mapped to the same name. -/
theorem c6_counterexample :
    mapGet (parseVCard c6Text) "15551234567" = some "Alice"
    ∧ mapGet (parseVCard c6Text) "5551234567" = some "Bob"
    ∧ some ("Alice" : String) ≠ some "Bob" := by
  refine ⟨rfl, rfl, by decide⟩

/-- Claim C6 amended: every key present in the finished directory has at
least 10 digits and consists of digits only; for every present key longer
than 10 digits (in particular every 11-digit key starting with `1`) the
directory also contains the key's last-10-digits suffix — inserted with
the same name at the time, though a later record may remap either key, so
equality of the two names in the finished directory is not guaranteed.
The spec's scenario holds: the Jane Doe record yields both `15551234567`
and `5551234567` mapped to `Jane Doe`. -/
theorem c6_key_guarantees :
    (∀ (text k : String), mapGet (parseVCard text) k ≠ none →
        (10 ≤ k.data.length ∧ ∀ c ∈ k.data, c.isDigit = true)
        ∧ (10 < k.data.length → mapGet (parseVCard text) (jsLast10 k) ≠ none))
    ∧ mapGet (parseVCard janeText) "15551234567" = some "Jane Doe"
    ∧ mapGet (parseVCard janeText) "5551234567" = some "Jane Doe" := by
  refine ⟨?_, rfl, rfl⟩
  intro text k hk
  rcases (mapGet_parseVCard_ne_none_iff text k).1 hk with ⟨kv, hmem, hkey⟩
  have hmem' : kv ∈ (vcardChunks text).flatMap chunkEntries := hmem
  rcases List.mem_flatMap.1 hmem' with ⟨chunk, hchunk, hck⟩
  rcases mem_chunkEntries_elim hck with ⟨name, cap, ht', hd, hcap, hkv⟩
  rcases mem_telEntries_shape hkv with ⟨np, hnp, hdig, hlen, hv2, hcase⟩
  subst hkey
  constructor
  · constructor
    · rcases hcase with hc | hc | ⟨h11, hc⟩
      · rw [hc]
        exact hlen
      · rw [hc]
        show 10 ≤ (np.drop (np.length - 10)).length
        rw [List.length_drop]
        omega
      · rw [hc]
        show 10 ≤ (np.drop 1).length
        rw [List.length_drop, h11]
    · rcases hcase with hc | hc | ⟨h11, hc⟩
      · rw [hc]
        exact hdig
      · rw [hc]
        intro c hcmem
        exact hdig c (List.mem_of_mem_drop hcmem)
      · rw [hc]
        intro c hcmem
        exact hdig c (List.mem_of_mem_drop hcmem)
  · intro hlong
    rcases hcase with hc | hc | ⟨h11, hc⟩
    · have hl : 10 < np.length := by
        rw [hc] at hlong
        exact hlong
      have hlBig : 10 < (charNormalize (unescapeVCard (jsTrim cap))).length := by
        rw [← hnp]
        exact hl
      have hsuf := @suffix_mem_telEntries name cap hlBig
      rw [← hnp] at hsuf
      rw [← hv2] at hsuf
      have hsufChunk : (String.mk (np.drop (np.length - 10)), kv.2) ∈ chunkEntries chunk :=
        mem_chunkEntries_of ht' hd hcap hsuf
      have hsufIns : (String.mk (np.drop (np.length - 10)), kv.2) ∈ vcardInsertions text :=
        List.mem_flatMap.2 ⟨chunk, hchunk, hsufChunk⟩
      refine (mapGet_parseVCard_ne_none_iff text (jsLast10 kv.1)).2
        ⟨(String.mk (np.drop (np.length - 10)), kv.2), hsufIns, ?_⟩
      show String.mk (np.drop (np.length - 10)) = jsLast10 kv.1
      rw [hc]
      rfl
    · exfalso
      rw [hc] at hlong
      have hlong' : 10 < (np.drop (np.length - 10)).length := hlong
      rw [List.length_drop] at hlong'
      omega
    · exfalso
      rw [hc] at hlong
      have hlong' : 10 < (np.drop 1).length := hlong
      rw [List.length_drop, h11] at hlong'
      omega

/-- Witness for C6 at the Jane Doe record: the present key `15551234567`
has at least 10 digits and its last-10-digits suffix key is present
too. -/
theorem c6_key_guarantees_witness :
    10 ≤ ("15551234567" : String).data.length
    ∧ mapGet (parseVCard janeText) (jsLast10 "15551234567") ≠ none := by
  have h := c6_key_guarantees.1 janeText "15551234567" (by decide)
  exact ⟨h.1.1, h.2 (by decide)⟩

/-! ## Counting lemmas for the per-handle aggregation -/

/-- Integer `==` is symmetric. -/
theorem intBeq_comm (a b : Int) : (a == b) = (b == a) := by
  by_cases h : a = b
  · simp [h]
  · have h' : ¬ b = a := fun hh => h hh.symm
    simp [h, h']

/-- Counting a two-way partition: when every element satisfies exactly one
of `p`, `q`, the two filter counts add up to the length. -/
theorem length_filter_add_length_filter {α : Type} (l : List α) (p q : α → Bool)
    (h : ∀ x ∈ l, (p x = true ∧ q x = false) ∨ (p x = false ∧ q x = true)) :
    (l.filter p).length + (l.filter q).length = l.length := by
  induction l with
  | nil => rfl
  | cons a t ih =>
      rw [List.filter_cons, List.filter_cons]
      have iht := ih (fun x hx => h x (List.mem_cons_of_mem a hx))
      rcases h a (List.mem_cons_self a t) with ⟨hp, hq⟩ | ⟨hp, hq⟩
      · rw [if_pos hp, if_neg (by simp [hq])]
        simp only [List.length_cons]
        omega
      · rw [if_neg (by simp [hp]), if_pos hq]
        simp only [List.length_cons]
        omega

/-- Counting a disjunction of disjoint predicates. -/
theorem length_filter_or {α : Type} (l : List α) (p q : α → Bool)
    (h : ∀ x ∈ l, ¬(p x = true ∧ q x = true)) :
    (l.filter (fun x => p x || q x)).length
      = (l.filter p).length + (l.filter q).length := by
  induction l with
  | nil => rfl
  | cons a t ih =>
      simp only [List.filter_cons]
      have iht := ih (fun x hx => h x (List.mem_cons_of_mem a hx))
      by_cases hp : p a = true
      · have hq : q a = false := by
          cases hv : q a
          · rfl
          · exact absurd ⟨hp, hv⟩ (h a (List.mem_cons_self a t))
        rw [if_pos (by simp [hp]), if_pos hp, if_neg (by simp [hq])]
        simp only [List.length_cons]
        omega
      · have hp' : p a = false := by
          cases hv : p a
          · rfl
          · exact absurd hv hp
        by_cases hq : q a = true
        · rw [if_pos (by simp [hp', hq]), if_neg (by simp [hp']), if_pos hq]
          simp only [List.length_cons]
          omega
        · have hq' : q a = false := by
            cases hv : q a
            · rfl
            · exact absurd hv hq
          rw [if_neg (by simp [hp', hq']), if_neg (by simp [hp']), if_neg (by simp [hq'])]
          exact iht

/-- The total of per-element indicator values is the filter count. -/
theorem sum_ite_eq_length_filter {α : Type} (l : List α) (p : α → Bool) :
    (l.map (fun x => if p x then 1 else 0)).sum = (l.filter p).length := by
  induction l with
  | nil => rfl
  | cons a t ih =>
      rw [List.map_cons, List.sum_cons, List.filter_cons]
      by_cases hp : p a = true
      · rw [if_pos hp, if_pos hp, List.length_cons, ih]
        omega
      · rw [if_neg hp, if_neg hp, ih]
        simp

/-- Under distinct keys, filtering a list on one key value keeps at most
one element. -/
theorem filter_key_length_le_one {α : Type} (f : α → Int) {l : List α}
    (hnd : (l.map f).Nodup) (x : Int) :
    (l.filter (fun a => f a == x)).length ≤ 1 := by
  induction l with
  | nil => simp
  | cons a t ih =>
      rw [List.map_cons, List.nodup_cons] at hnd
      rw [List.filter_cons]
      by_cases hp : (f a == x) = true
      · rw [if_pos hp]
        have hnil : t.filter (fun b => f b == x) = [] := by
          rw [List.filter_eq_nil_iff]
          intro b hb hpb
          have h1 : f a = x := by simpa using hp
          have h2 : f b = x := by simpa using hpb
          exact hnd.1 (by rw [h1, ← h2]; exact List.mem_map.2 ⟨b, hb, rfl⟩)
        rw [hnil]
        simp
      · rw [if_neg hp]
        exact ih hnd.2

/-- Under distinct handle ROWIDs, the group of a handle's key consists of
exactly that handle. -/
theorem filter_key_eq_single {hs : List Handle}
    (hH : (hs.map (fun h => h.rowid)).Nodup) {h : Handle} (hmem : h ∈ hs) :
    hs.filter (fun h' => h'.rowid == h.rowid && h'.id == h.id) = [h] := by
  induction hs with
  | nil => cases hmem
  | cons a t ih =>
      rw [List.map_cons, List.nodup_cons] at hH
      rcases List.mem_cons.1 hmem with rfl | hmem'
      · rw [List.filter_cons, if_pos (by simp)]
        have hnil : t.filter (fun h' => h'.rowid == h.rowid && h'.id == h.id) = [] := by
          rw [List.filter_eq_nil_iff]
          intro b hb hpb
          simp only [Bool.and_eq_true, beq_iff_eq] at hpb
          exact hH.1 (by rw [← hpb.1]; exact List.mem_map.2 ⟨b, hb, rfl⟩)
        rw [hnil]
      · rw [List.filter_cons]
        have hne : a.rowid ≠ h.rowid := by
          intro he
          exact hH.1 (he ▸ List.mem_map.2 ⟨h, hmem', rfl⟩)
        rw [if_neg (by simp [hne])]
        exact ih hH.2 hmem'

/-- Summing the per-handle message counts over handles with distinct
ROWIDs counts each message with a matching handle exactly once. -/
theorem sum_group_counts {ms : List Message} {hs : List Handle}
    (hnd : (hs.map (fun h => h.rowid)).Nodup) :
    (hs.map (fun h => (ms.filter (fun m => m.handle_id == h.rowid)).length)).sum
      = (ms.filter (fun m => hs.any (fun h => h.rowid == m.handle_id))).length := by
  induction hs with
  | nil => simp
  | cons a t ih =>
      rw [List.map_cons, List.sum_cons]
      rw [List.map_cons, List.nodup_cons] at hnd
      rw [ih hnd.2]
      have hcong : ms.filter (fun m => (a :: t).any (fun h => h.rowid == m.handle_id))
          = ms.filter (fun m =>
              (a.rowid == m.handle_id) || t.any (fun h => h.rowid == m.handle_id)) := by
        apply List.filter_congr
        intro m _
        rw [List.any_cons]
      rw [hcong]
      rw [length_filter_or ms (fun m => a.rowid == m.handle_id)
        (fun m => t.any (fun h => h.rowid == m.handle_id)) ?_]
      · congr 1
        apply congrArg List.length
        apply List.filter_congr
        intro m _
        exact intBeq_comm m.handle_id a.rowid
      · intro m _ hboth
        have h1 : a.rowid = m.handle_id := by simpa using hboth.1
        rcases List.any_eq_true.1 hboth.2 with ⟨h, hht, hhr⟩
        have h2 : h.rowid = m.handle_id := by simpa using hhr
        exact hnd.1 (by rw [h1, ← h2]; exact List.mem_map.2 ⟨h, hht, rfl⟩)

/-- Under non-duplicating joins (distinct handle and chat ROWIDs, at most
one `chat_message_join` row for the message), a message contributes
exactly one row to the all-messages result, and that row has a non-null
phone exactly when some handle matches. -/
theorem joinRows_phone_count {s : Store} {m : Message}
    (hH : (s.handles.map (fun h => h.rowid)).Nodup)
    (hC : (s.chats.map (fun c => c.rowid)).Nodup)
    (hJm : (s.cmjs.filter (fun j => j.message_id == m.rowid)).length ≤ 1) :
    ((msgJoinRows s m).filter (fun r => r.phone_number.isSome)).length
      = (if s.handles.any (fun h => h.rowid == m.handle_id) then 1 else 0) := by
  have hcmj : ∃ oj, cmjOptsFor s m = [oj] := by
    unfold cmjOptsFor
    cases hf : s.cmjs.filter (fun j => j.message_id == m.rowid) with
    | nil => exact ⟨none, rfl⟩
    | cons j t =>
        rw [hf] at hJm
        simp only [List.length_cons] at hJm
        have ht : t = [] := List.length_eq_zero.1 (by omega)
        subst ht
        exact ⟨some j, rfl⟩
  have hchat : ∀ oj : Option CMJ, ∃ oc, chatOptsFor s oj = [oc] := by
    intro oj
    cases oj with
    | none => exact ⟨none, rfl⟩
    | some j =>
        have hle : (s.chats.filter (fun c => c.rowid == j.chat_id)).length ≤ 1 :=
          filter_key_length_le_one (fun c : Chat => c.rowid) hC j.chat_id
        unfold chatOptsFor
        show ∃ oc, (match s.chats.filter (fun c => c.rowid == j.chat_id) with
          | [] => [none] | l => l.map some) = [oc]
        cases hf : s.chats.filter (fun c => c.rowid == j.chat_id) with
        | nil => exact ⟨none, rfl⟩
        | cons c t =>
            rw [hf] at hle
            simp only [List.length_cons] at hle
            have ht : t = [] := List.length_eq_zero.1 (by omega)
            subst ht
            exact ⟨some c, rfl⟩
  rcases hcmj with ⟨oj, hoj⟩
  rcases hchat oj with ⟨oc, hoc⟩
  have hleH : (s.handles.filter (fun h => h.rowid == m.handle_id)).length ≤ 1 :=
    filter_key_length_le_one (fun h : Handle => h.rowid) hH m.handle_id
  cases hh : s.handles.filter (fun h => h.rowid == m.handle_id) with
  | nil =>
      have hho : handleOptsFor s m = [none] := by
        unfold handleOptsFor
        rw [hh]
      have hany : s.handles.any (fun h => h.rowid == m.handle_id) = false := by
        cases hv : s.handles.any (fun h => h.rowid == m.handle_id)
        · rfl
        · exfalso
          rcases List.any_eq_true.1 hv with ⟨h0, hh0, hp0⟩
          have hmem0 : h0 ∈ s.handles.filter (fun h => h.rowid == m.handle_id) :=
            List.mem_filter.2 ⟨hh0, hp0⟩
          rw [hh] at hmem0
          cases hmem0
      rw [hany]
      unfold msgJoinRows
      simp only [hho, hoj, List.flatMap_cons, List.flatMap_nil, List.append_nil, hoc,
        List.map_cons, List.map_nil]
      simp [List.filter]
  | cons h0 t =>
      rw [hh] at hleH
      simp only [List.length_cons] at hleH
      have ht : t = [] := List.length_eq_zero.1 (by omega)
      subst ht
      have hho : handleOptsFor s m = [some h0] := by
        unfold handleOptsFor
        rw [hh]
        rfl
      have hmem0 : h0 ∈ s.handles.filter (fun h => h.rowid == m.handle_id) := by
        rw [hh]
        exact List.mem_cons_self _ _
      have hany : s.handles.any (fun h => h.rowid == m.handle_id) = true := by
        rcases List.mem_filter.1 hmem0 with ⟨hm0, hp0⟩
        exact List.any_eq_true.2 ⟨h0, hm0, hp0⟩
      rw [hany]
      unfold msgJoinRows
      simp only [hho, hoj, List.flatMap_cons, List.flatMap_nil, List.append_nil, hoc,
        List.map_cons, List.map_nil]
      simp [List.filter]

/-! ## Claim C2 -/

/-- A store with one handle and no messages: the `LEFT JOIN` in the
per-handle query produces a null-extended row that `COUNT(*)` counts. -/
def c2Store : Store :=
  { messages := [], handles := [ { rowid := 1, id := "5551234567" } ], chats := [], cmjs := [] }

/-- Claim C2 is false as stated: in a store with one message-less handle
the per-handle summary row has `messageCount = 1` but
`receivedCount = sentCount = 0` (the null-extended join row is counted by
`COUNT(*)` but by neither `SUM(CASE ...)`), and the message-count sum `1`
differs from the overall total `0`. -/
theorem c2_counterexample :
    (analyze [] c2Store tz0).contacts.map
        (fun c => (c.messageCount, c.receivedCount, c.sentCount)) = [(1, 0, 0)]
    ∧ (analyze [] c2Store tz0).summary.totalMessages = 0
    ∧ ¬(∀ c ∈ (analyze [] c2Store tz0).contacts,
          c.receivedCount + c.sentCount = c.messageCount)
    ∧ ((analyze [] c2Store tz0).contacts.map (fun c => c.messageCount)).sum
        ≠ ((allMessageRows c2Store).filter (fun r => r.phone_number.isSome)).length := by
  exact ⟨rfl, rfl, by decide, by decide⟩

/-- Claim C2 amended: restricted to stores where every handle has at
least one message, every direction flag is 0 or 1, handle and chat ROWIDs
are distinct, and no message sits in two `chat_message_join` rows, the
claim holds — every ContactSummary row satisfies
`receivedCount + sentCount = messageCount`, and summing `messageCount`
over all rows equals the all-messages row count restricted to rows with a
non-null handle.  (A handle with no messages breaks both equations — its
row counts the null-extended join row.) -/
theorem c2_contact_sums (dir : List (String × String)) (s : Store) (tz : Int → Int)
    (hH : (s.handles.map (fun h => h.rowid)).Nodup)
    (hC : (s.chats.map (fun c => c.rowid)).Nodup)
    (hJ : ∀ m ∈ s.messages, (s.cmjs.filter (fun j => j.message_id == m.rowid)).length ≤ 1)
    (hNZ : ∀ h ∈ s.handles, ∃ m ∈ s.messages, m.handle_id = h.rowid)
    (hF : ∀ m ∈ s.messages, m.is_from_me = 0 ∨ m.is_from_me = 1) :
    (∀ c ∈ (analyze dir s tz).contacts,
        c.receivedCount + c.sentCount = c.messageCount)
    ∧ ((analyze dir s tz).contacts.map (fun c => c.messageCount)).sum
        = ((allMessageRows s).filter (fun r => r.phone_number.isSome)).length := by
  have hc : (analyze dir s tz).contacts = (contactRows s).map (formatContact dir) := rfl
  constructor
  · intro c hcmem
    rw [hc] at hcmem
    rcases List.mem_map.1 hcmem with ⟨r, hr, rfl⟩
    have hr2 : r ∈ (contactKeys s).map (contactRowOf s) :=
      (perm_sortByLe _ _).mem_iff.1 hr
    rcases List.mem_map.1 hr2 with ⟨k, hk, rfl⟩
    have hk2 : k ∈ s.handles.map (fun h => (h.rowid, h.id)) := List.mem_dedup.1 hk
    rcases List.mem_map.1 hk2 with ⟨h, hhm, rfl⟩
    show ((groupMsgOpts s (h.rowid, h.id)).filter (fun r =>
            match r with | some m => m.is_from_me == 0 | none => false)).length
        + ((groupMsgOpts s (h.rowid, h.id)).filter (fun r =>
            match r with | some m => m.is_from_me == 1 | none => false)).length
        = (groupMsgOpts s (h.rowid, h.id)).length
    have hfil := filter_key_eq_single hH hhm
    cases hms : s.messages.filter (fun m => m.handle_id == h.rowid) with
    | nil =>
        exfalso
        rcases hNZ h hhm with ⟨m, hm, hmh⟩
        have hmem2 : m ∈ s.messages.filter (fun m => m.handle_id == h.rowid) :=
          List.mem_filter.2 ⟨hm, by simp [hmh]⟩
        rw [hms] at hmem2
        cases hmem2
    | cons m0 t =>
        have hrows : groupMsgOpts s (h.rowid, h.id) = (m0 :: t).map some := by
          unfold groupMsgOpts
          rw [hfil]
          simp only [List.flatMap_cons, List.flatMap_nil, List.append_nil]
          rw [hms]
        rw [hrows, List.filter_map, List.filter_map, List.length_map, List.length_map,
          List.length_map]
        apply length_filter_add_length_filter
        intro x hx
        have hxmem : x ∈ s.messages := by
          have hxf : x ∈ s.messages.filter (fun m => m.handle_id == h.rowid) := by
            rw [hms]
            exact hx
          exact (List.mem_filter.1 hxf).1
        rcases hF x hxmem with h0 | h1
        · left
          refine ⟨?_, ?_⟩ <;> simp [Function.comp, h0]
        · right
          refine ⟨?_, ?_⟩ <;> simp [Function.comp, h1]
  · have hL1 : (analyze dir s tz).contacts.map (fun c => c.messageCount)
        = (contactRows s).map (fun r => r.messageCount) := by
      rw [hc, List.map_map]
      rfl
    rw [hL1]
    unfold contactRows
    rw [((perm_sortByLe (fun a b => decide (b.messageCount ≤ a.messageCount))
      ((contactKeys s).map (contactRowOf s))).map (fun r => r.messageCount)).sum_eq]
    rw [List.map_map]
    have hkeys : contactKeys s = s.handles.map (fun h => (h.rowid, h.id)) := by
      unfold contactKeys
      apply List.dedup_eq_self.2
      have h1 : (List.map Prod.fst (s.handles.map (fun h => (h.rowid, h.id)))).Nodup := by
        rw [List.map_map]
        exact hH
      exact List.Nodup.of_map Prod.fst h1
    rw [hkeys, List.map_map]
    have hpt : ∀ h ∈ s.handles,
        (((fun r => r.messageCount) ∘ contactRowOf s) ∘ (fun h => (h.rowid, h.id))) h
          = (s.messages.filter (fun m => m.handle_id == h.rowid)).length := by
      intro h hhm
      show (groupMsgOpts s (h.rowid, h.id)).length = _
      have hfil := filter_key_eq_single hH hhm
      unfold groupMsgOpts
      rw [hfil]
      simp only [List.flatMap_cons, List.flatMap_nil, List.append_nil]
      cases hms : s.messages.filter (fun m => m.handle_id == h.rowid) with
      | nil =>
          exfalso
          rcases hNZ h hhm with ⟨m, hm, hmh⟩
          have hmem2 : m ∈ s.messages.filter (fun m => m.handle_id == h.rowid) :=
            List.mem_filter.2 ⟨hm, by simp [hmh]⟩
          rw [hms] at hmem2
          cases hmem2
      | cons m0 t =>
          rw [List.length_map]
    rw [List.map_congr_left hpt, sum_group_counts hH]
    unfold allMessageRows
    rw [((perm_sortByLe (fun a b => decide (b.date ≤ a.date))
      (s.messages.flatMap (msgJoinRows s))).filter (fun r => r.phone_number.isSome)).length_eq]
    rw [List.filter_flatMap, List.length_flatMap]
    have hpt2 : ∀ m ∈ s.messages,
        (List.length ∘ fun m => List.filter (fun r => r.phone_number.isSome) (msgJoinRows s m)) m
          = (fun m => if s.handles.any (fun h => h.rowid == m.handle_id) then 1 else 0) m := by
      intro m hm
      exact joinRows_phone_count hH hC (hJ m hm)
    rw [List.map_congr_left hpt2, sum_ite_eq_length_filter]

/-- Witness for C2 on the two-message demo store (every hypothesis holds
there): the message-count sum equals the non-null-handle row count, and
every contact row balances. -/
theorem c2_contact_sums_witness :
    ((analyze [] demoStore tz0).contacts.map (fun c => c.messageCount)).sum
        = ((allMessageRows demoStore).filter (fun r => r.phone_number.isSome)).length
    ∧ ((analyze [] demoStore tz0).contacts.all
        (fun c => c.receivedCount + c.sentCount == c.messageCount)) = true := by
  have h := c2_contact_sums [] demoStore tz0 (by decide) (by decide) (by decide)
    (by decide) (by decide)
  refine ⟨h.2, ?_⟩
  rw [List.all_eq_true]
  intro c hcmem
  have hcc := h.1 c hcmem
  simpa using hcc

/-! ## Trim lemmas -/

/-- Dropping a satisfied prefix twice is the same as once. -/
theorem dropWhile_dropWhile {α : Type} (p : α → Bool) (l : List α) :
    List.dropWhile p (List.dropWhile p l) = List.dropWhile p l := by
  induction l with
  | nil => rfl
  | cons a t ih =>
      rw [List.dropWhile_cons]
      by_cases hp : p a = true
      · rw [if_pos hp]
        exact ih
      · rw [if_neg hp, List.dropWhile_cons, if_neg hp]

/-- A list unchanged by `dropWhile` has an unsatisfied head. -/
theorem head_false_of_dropWhile_eq {α : Type} {p : α → Bool} {a : α} {t : List α}
    (h : List.dropWhile p (a :: t) = a :: t) : p a = false := by
  by_cases hp : p a = true
  · exfalso
    rw [List.dropWhile_cons, if_pos hp] at h
    have hle : (List.dropWhile p t).length ≤ t.length :=
      (List.dropWhile_suffix p).sublist.length_le
    rw [h] at hle
    simp only [List.length_cons] at hle
    omega
  · cases hv : p a
    · rfl
    · exact absurd hv hp

/-- The output of `jsTrim` is trimmed on both ends. -/
theorem jsTrim_trimmed (x : List Char) :
    List.dropWhile jsWS (jsTrim x) = jsTrim x
      ∧ List.dropWhile jsWS (jsTrim x).reverse = (jsTrim x).reverse := by
  constructor
  · cases ht : jsTrim x with
    | nil => rfl
    | cons c t' =>
        have hpre : (jsTrim x) <+: (x.dropWhile jsWS) := by
          have hsuf : List.dropWhile jsWS (x.dropWhile jsWS).reverse
              <:+ (x.dropWhile jsWS).reverse := List.dropWhile_suffix jsWS
          have := List.reverse_prefix.2 hsuf
          rw [List.reverse_reverse] at this
          exact this
        rw [ht] at hpre
        rcases hpre with ⟨s, hs⟩
        have hu : List.dropWhile jsWS (x.dropWhile jsWS) = x.dropWhile jsWS :=
          dropWhile_dropWhile jsWS x
        rw [← hs] at hu
        have hc : jsWS c = false := head_false_of_dropWhile_eq (by
          rw [List.cons_append] at hu
          exact hu)
        rw [List.dropWhile_cons, if_neg (by simp [hc])]
  · have hrev : (jsTrim x).reverse
        = List.dropWhile jsWS (x.dropWhile jsWS).reverse := by
      show ((((x.dropWhile jsWS).reverse.dropWhile jsWS)).reverse).reverse = _
      rw [List.reverse_reverse]
    rw [hrev, dropWhile_dropWhile]

/-- JS `trim` is idempotent. -/
theorem jsTrim_idem (x : List Char) : jsTrim (jsTrim x) = jsTrim x := by
  have h := jsTrim_trimmed x
  show (((jsTrim x).dropWhile jsWS).reverse.dropWhile jsWS).reverse = jsTrim x
  rw [h.1, h.2, List.reverse_reverse]

/-- Gluing two trimmed non-empty pieces with a single inner space is
already trimmed. -/
theorem jsTrim_append_sep {a b : List Char} (hane : a ≠ []) (hbne : b ≠ [])
    (hja : jsTrim a = a) (hjb : jsTrim b = b) :
    jsTrim (b ++ ' ' :: a) = b ++ ' ' :: a := by
  have hA := jsTrim_trimmed a
  rw [hja] at hA
  have hB := jsTrim_trimmed b
  rw [hjb] at hB
  have h1 : List.dropWhile jsWS (b ++ ' ' :: a) = b ++ ' ' :: a := by
    cases b with
    | nil => exact absurd rfl hbne
    | cons b0 b' =>
        have hb0 : jsWS b0 = false := head_false_of_dropWhile_eq hB.1
        rw [List.cons_append, List.dropWhile_cons, if_neg (by simp [hb0]),
          ← List.cons_append]
  have h2 : (b ++ ' ' :: a).reverse = a.reverse ++ ' ' :: b.reverse := by
    rw [List.reverse_append, List.reverse_cons, List.append_assoc, List.singleton_append]
  have h3 : List.dropWhile jsWS (a.reverse ++ ' ' :: b.reverse)
      = a.reverse ++ ' ' :: b.reverse := by
    cases har : a.reverse with
    | nil =>
        exfalso
        apply hane
        rw [← List.reverse_reverse a, har]
        rfl
    | cons a0 a' =>
        have ha0 : jsWS a0 = false := by
          have hA2 := hA.2
          rw [har] at hA2
          exact head_false_of_dropWhile_eq hA2
        rw [List.cons_append, List.dropWhile_cons, if_neg (by simp [ha0]),
          ← List.cons_append]
  show ((List.dropWhile jsWS (b ++ ' ' :: a)).reverse.dropWhile jsWS).reverse = _
  rw [h1, h2, h3, ← h2, List.reverse_reverse]

/-! ## Claim C5 -/

/-- The composition rule the code actually implements, stated over the
already trimmed-and-filtered component list: the second remaining
component followed by the first, the sole component when only one
remains. -/
def givenFamilyOfParts : List (List Char) → List Char
  | [] => []
  | [a] => a
  | a :: b :: _ => b ++ ' ' :: a

/-- Refinement of the `N`-field composition: `composeN` equals the
`givenFamilyOfParts` rule applied to the trimmed non-empty components. -/
theorem composeN_characterization (raw : List Char) :
    composeN raw
      = givenFamilyOfParts
          (((splitChar ';' raw).map jsTrim).filter (fun p => !p.isEmpty)) := by
  have hprops : ∀ p ∈ ((splitChar ';' raw).map jsTrim).filter (fun p => !p.isEmpty),
      p ≠ [] ∧ jsTrim p = p := by
    intro p hp
    rcases List.mem_filter.1 hp with ⟨hp1, hp2⟩
    constructor
    · intro h0
      rw [h0] at hp2
      simp at hp2
    · rcases List.mem_map.1 hp1 with ⟨x, _, rfl⟩
      exact jsTrim_idem x
  simp only [composeN]
  cases hP : ((splitChar ';' raw).map jsTrim).filter (fun p => !p.isEmpty) with
  | nil => rfl
  | cons a t =>
      rw [hP] at hprops
      have ha := hprops a (List.mem_cons_self _ _)
      have hae : a.isEmpty = false := by
        rw [List.isEmpty_eq_false]
        exact ha.1
      cases t with
      | nil =>
          simp [givenFamilyOfParts, List.intercalate, hae, ha.2]
      | cons b t2 =>
          have hb := hprops b (List.mem_cons_of_mem _ (List.mem_cons_self _ _))
          have hbe : b.isEmpty = false := by
            rw [List.isEmpty_eq_false]
            exact hb.1
          have hba : (b ++ ' ' :: a).isEmpty = false := by
            cases b with
            | nil => exact absurd rfl hb.1
            | cons x xs => rfl
          simp [givenFamilyOfParts, List.intercalate, hae, hbe, hba,
            jsTrim_append_sep ha.1 hb.1 ha.2 hb.2]

/-- A record with no full-name field whose structured-name field is
`Doe;;Bill` (family `Doe`, empty given, additional `Bill`). -/
def c5Text : String := "BEGIN:VCARD\nN:Doe;;Bill\nTEL:5551234567\nEND:VCARD"

/-- Claim C5 is false as stated: for `N:Doe;;Bill` the claim's composition
(given empty, family `Doe`, skipping empty parts) predicts the name
`Doe`, but the code filters the empty components out before indexing, so
`parts[1]` is the additional component `Bill` and the derived name is
`Bill Doe`. -/
theorem c5_counterexample :
    parseVCard c5Text = [("5551234567", "Bill Doe")]
    ∧ ("Bill Doe" : String) ≠ "Doe" := by
  refine ⟨rfl, by decide⟩

/-- Claim C5 amended: a record whose name derivation fails contributes
zero entries (in particular one missing both the full-name and the
structured-name field); every entry a record contributes carries the
derived name as its value; when the first `FN` match's trimmed, unescaped
capture is non-empty it is the name; otherwise a line-anchored `N` match
is composed — but with the trimmed components filtered for emptiness
before indexing, so the name is the second remaining component followed
by the first (`givenFamilyOfParts`), not the original given/family
slots. -/
theorem c5_name_derivation :
    (∀ chunk : List Char, deriveName chunk = none → chunkEntries chunk = [])
    ∧ (∀ (chunk name : List Char), deriveName chunk = some name →
        ∀ kv ∈ chunkEntries chunk, kv.2 = String.mk name)
    ∧ (∀ (chunk cap : List Char), findFN chunk = some cap →
        unescapeVCard (jsTrim cap) ≠ [] →
        deriveName chunk = some (unescapeVCard (jsTrim cap)))
    ∧ (∀ (chunk raw : List Char), findFN chunk = none → findN chunk = some raw →
        composeN raw ≠ [] → deriveName chunk = some (composeN raw))
    ∧ (∀ raw : List Char, composeN raw
        = givenFamilyOfParts
            (((splitChar ';' raw).map jsTrim).filter (fun p => !p.isEmpty)))
    ∧ (∀ chunk : List Char, findFN chunk = none → findN chunk = none →
        chunkEntries chunk = []) := by
  have h1 : ∀ chunk : List Char, deriveName chunk = none → chunkEntries chunk = [] := by
    intro chunk h
    simp [chunkEntries, h]
  refine ⟨h1, ?_, ?_, ?_, composeN_characterization, ?_⟩
  · intro chunk name hd kv hkv
    rcases mem_chunkEntries_elim hkv with ⟨name', cap, _, hd', _, hkv'⟩
    have hn : name' = name := by
      rw [hd'] at hd
      exact Option.some.inj hd
    subst hn
    rcases mem_telEntries_shape hkv' with ⟨np, _, _, _, hv2, _⟩
    exact hv2
  · intro chunk cap hfn hne
    have hie : (unescapeVCard (jsTrim cap)).isEmpty = false := by
      rw [List.isEmpty_eq_false]
      exact hne
    simp [deriveName, hfn, hie]
  · intro chunk raw hfn hn hne
    have hie : (composeN raw).isEmpty = false := by
      rw [List.isEmpty_eq_false]
      exact hne
    simp [deriveName, hfn, hn, hie]
  · intro chunk hfn hn
    exact h1 chunk (by simp [deriveName, hfn, hn])

/-- Witness for C5 at the counterexample record: the `N`-branch hypotheses
hold concretely and the derived name is `Bill Doe`. -/
theorem c5_name_derivation_witness :
    deriveName ("\nN:Doe;;Bill\nTEL:5551234567\nEND:VCARD".data)
        = some ("Bill Doe".data)
    ∧ composeN ("Doe;;Bill".data)
        = givenFamilyOfParts
            (((splitChar ';' ("Doe;;Bill".data)).map jsTrim).filter (fun p => !p.isEmpty)) := by
  refine ⟨?_, c5_name_derivation.2.2.2.2.1 ("Doe;;Bill".data)⟩
  have h := c5_name_derivation.2.2.2.1 ("\nN:Doe;;Bill\nTEL:5551234567\nEND:VCARD".data)
    ("Doe;;Bill".data) (by decide) (by decide) (by decide)
  exact h.trans (by decide)
